import Mathlib

/-!
Shallow embedding of `skills/draw-ascii-diagrams/scripts/check_alignment.py`.

Lines of text are modelled as `List Char` (Python indexes strings by code
point, which matches `List Char` positions).  The mutable line buffer is
passed explicitly; fixers return the updated buffer together with the fix
count.  `fix_inner_alignment` can raise a `ValueError` (a `max()` over an
empty sequence), so it is modelled in `Except`, the error payload being the
buffer at the moment the exception is raised.
-/

namespace CheckAlignment

abbrev Line := List Char

/-- Whitespace as stripped by Python's `str.strip` family (ASCII range). -/
def isPySpace (c : Char) : Bool :=
  c = ' ' || c = '\t' || c = '\n' || c = '\r' || c = Char.ofNat 11 || c = Char.ofNat 12

/-- Python `txt.lstrip()`. -/
def lstrip (s : Line) : Line := s.dropWhile isPySpace

/-- Python `txt.rstrip()`. -/
def rstrip (s : Line) : Line := (s.reverse.dropWhile isPySpace).reverse

/-- `BORDER_CHARS = set('│┌┐└┘├┤┬┴┼▼▲◄►')`. -/
def BORDER_CHARS : List Char := ['│', '┌', '┐', '└', '┘', '├', '┤', '┬', '┴', '┼', '▼', '▲', '◄', '►']

/-- `LEFT_BORDER = set('│├┌└')`. -/
def LEFT_BORDER : List Char := ['│', '├', '┌', '└']

/-- `RIGHT_BORDER = set('│┤┐┘')`. -/
def RIGHT_BORDER : List Char := ['│', '┤', '┐', '┘']

def isBorderChar (c : Char) : Bool := BORDER_CHARS.contains c

def isLeftBorder (c : Char) : Bool := LEFT_BORDER.contains c

def isRightBorder (c : Char) : Bool := RIGHT_BORDER.contains c

/-- A box emitted by `find_boxes` (the dict with keys start/width/lines/end;
`end` is a Lean keyword, so the field is called `stop`). -/
structure Box where
  start : Nat
  width : Nat
  lines : List (Nat × Line)
  stop : Nat
deriving Repr, DecidableEq, Inhabited

/-- A still-open box during scanning (no `end` key yet). -/
structure PBox where
  start : Nat
  width : Nat
  lines : List (Nat × Line)
deriving Repr, DecidableEq

/-- `line.lstrip().startswith(('┌', '╔'))`. -/
def isOpenerLine (s : Line) : Bool :=
  match lstrip s with
  | c :: _ => c = '┌' || c = '╔'
  | [] => false

/-- `line.lstrip().startswith(('└', '╚'))`. -/
def isCloserLine (s : Line) : Bool :=
  match lstrip s with
  | c :: _ => c = '└' || c = '╚'
  | [] => false

/-- The loop body of `find_boxes`, walking the 0-based index list. -/
def findBoxesGo (lines : List Line) : List Nat → Option PBox → List Box → List Box
  | [], _, acc => acc
  | i :: rest, none, acc =>
    let line := lines.getD i []
    if isOpenerLine line then
      findBoxesGo lines rest (some ⟨i + 1, line.length, [(i + 1, line)]⟩) acc
    else
      findBoxesGo lines rest none acc
  | i :: rest, some pb, acc =>
    let line := lines.getD i []
    if isCloserLine line then
      findBoxesGo lines rest none
        (acc ++ [⟨pb.start, pb.width, pb.lines ++ [(i + 1, line)], i + 1⟩])
    else
      findBoxesGo lines rest (some ⟨pb.start, pb.width, pb.lines ++ [(i + 1, line)]⟩) acc

/-- `range(start_line - 1, min(end_line, len(lines)))` as a list of 0-based indices. -/
def scanRange (s e len : Nat) : List Nat := List.range' (s - 1) (min e len - (s - 1))

/-- `find_boxes(lines, start_line, end_line)`. -/
def findBoxes (lines : List Line) (s e : Nat) : List Box :=
  findBoxesGo lines (scanRange s e lines.length) none []

/-- `max((i for i, ch in enumerate(txt) if ch in RIGHT_BORDER), default=-1)`,
with `-1` modelled as `none`. -/
def rightmostIdx : Line → Option Nat
  | [] => none
  | c :: rest =>
    match rightmostIdx rest with
    | some i => some (i + 1)
    | none => if isRightBorder c then some 0 else none

/-- Actual width of a line in `check_outer_width`:
rightmost right-border column + 1, else right-trimmed length. -/
def measureWidth (txt : Line) : Nat :=
  match rightmostIdx txt with
  | some r => r + 1
  | none => (rstrip txt).length

/-- Expected width in `check_outer_width`: rightmost right-border column of the
first line + 1, or its raw length when it has no right-border glyph. -/
def expectedWidth (first : Line) : Nat :=
  match rightmostIdx first with
  | some r => r + 1
  | none => first.length

/-- `check_outer_width(box)` producing `(line, actual, expected, text)` records. -/
def checkOuterWidth (box : Box) : List (Nat × Nat × Nat × Line) :=
  match box.lines with
  | [] => []
  | (_, first) :: _ =>
    box.lines.filterMap fun p =>
      if measureWidth p.2 = expectedWidth first then none
      else some (p.1, measureWidth p.2, expectedWidth first, p.2)

/-- `inner = txt[1:] if txt and txt[0] in LEFT_BORDER else txt`. -/
def innerOf : Line → Line
  | [] => []
  | c :: rest => if isLeftBorder c then rest else c :: rest

def hasTopGlyph (inner : Line) : Bool := inner.contains '┌'

def hasBottomGlyph (inner : Line) : Bool := inner.contains '└'

/-- `any(c in inner for c in '│▼▲◄►v^')`. -/
def hasVertGlyph (inner : Line) : Bool :=
  ['│', '▼', '▲', '◄', '►', 'v', '^'].any fun c => inner.contains c

/-- The loop body of `find_inner_box_groups` over the interior lines. -/
def innerGroupsGo :
    List (Nat × Line) → Bool → List (Nat × Line) → List (List (Nat × Line)) →
      List (List (Nat × Line))
  | [], _, _, acc => acc
  | p :: rest, inInner, cur, acc =>
    if hasTopGlyph (innerOf p.2) then
      innerGroupsGo rest true [p] acc
    else if hasBottomGlyph (innerOf p.2) && inInner then
      innerGroupsGo rest false [] (acc ++ [cur ++ [p]])
    else if inInner && hasVertGlyph (innerOf p.2) then
      innerGroupsGo rest inInner (cur ++ [p]) acc
    else
      innerGroupsGo rest inInner cur acc

/-- `find_inner_box_groups(box)`: groups inside `box['lines'][1:-1]`. -/
def findInnerBoxGroups (box : Box) : List (List (Nat × Line)) :=
  innerGroupsGo ((box.lines.drop 1).dropLast) false [] []

/-- All `(index, char)` pairs whose char is in `BORDER_CHARS`. -/
def allBorderPositions (l : Line) : List (Nat × Char) :=
  l.enum.filter fun p => isBorderChar p.2

/-- `get_border_positions(line, inner_only)`. -/
def getBorderPositions (line : Line) (innerOnly : Bool) : List (Nat × Char) :=
  if line = [] then []
  else if innerOnly && decide (2 ≤ (allBorderPositions line).length) &&
      isLeftBorder ((allBorderPositions line).headD (0, ' ')).2 &&
      isRightBorder ((allBorderPositions line).getLastD (0, ' ')).2 then
    (allBorderPositions line).tail.dropLast
  else allBorderPositions line

/-- The `for j, (rc, cc) in enumerate(zip(...)): if rc != cc: ...; break` loop:
the first pair of a zipped column list whose components differ. -/
def firstDiff : List (Nat × Nat) → Option (Nat × Nat)
  | [] => none
  | p :: rest => if p.1 = p.2 then firstDiff rest else some p

/-- An alignment error record `(line, actualCol, expectedCol, refLine, text)`. -/
abbrev AlignErr := Nat × Nat × Nat × Nat × Line

/-- `[p for p, _ in get_border_positions(txt)]`: the border-glyph columns of a
line as used by `check_inner_alignment` and `fix_inner_alignment`. -/
def lineCols (txt : Line) : List Nat := (getBorderPositions txt true).map Prod.fst

/-- The per-member body of the inner loop of `check_inner_alignment`. -/
def memberInnerError (refLn : Nat) (refCols : List Nat) (p : Nat × Line) : List AlignErr :=
  if (lineCols p.2).length = refCols.length then
    match firstDiff (refCols.zip (lineCols p.2)) with
    | some d => [(p.1, d.2, d.1, refLn, p.2)]
    | none => []
  else if 0 < (lineCols p.2).length ∧ 0 < refCols.length then
    if (lineCols p.2).headD 0 ≠ refCols.headD 0 ∨
        (lineCols p.2).getLastD 0 ≠ refCols.getLastD 0 then
      [(p.1, (lineCols p.2).getLastD 0, refCols.getLastD 0, refLn, p.2)]
    else []
  else []

/-- The per-group body of `check_inner_alignment` (`if len(group) < 2: continue`). -/
def groupInnerErrors : List (Nat × Line) → List AlignErr
  | [] => []
  | [_] => []
  | r :: m :: ms => (m :: ms).flatMap (memberInnerError r.1 (lineCols r.2))

/-- `check_inner_alignment(box)`. -/
def checkInnerAlignment (box : Box) : List AlignErr :=
  (findInnerBoxGroups box).flatMap groupInnerErrors

/-- `set('┬┴┼┌┐└┘')`, the anchor target glyphs. -/
def SEARCH_CHARS : List Char := ['┬', '┴', '┼', '┌', '┐', '└', '┘']

/-- `set('│▼▲')`, the floating glyphs (also the fallback anchor glyphs). -/
def FLOATING_CHARS : List Char := ['│', '▼', '▲']

/-- `range(max(0, col - 3), min(len(line), col + 4))`. -/
def colRange (lineLen col : Nat) : List Nat :=
  List.range' (col - 3) (min lineLen (col + 4) - (col - 3))

/-- One row of the anchor search: first matching column in the window. -/
def searchRowFor (chars : List Char) (line : Line) (col : Nat) : Option Nat :=
  (colRange line.length col).find? fun c => chars.contains (line.getD c ' ')

/-- A row loop of the anchor search with early return. -/
def searchRowsFor (chars : List Char) (lines : List Line) (col : Nat) :
    List Nat → Option (Nat × Nat)
  | [] => none
  | r :: rest =>
    match searchRowFor chars (lines.getD r []) col with
    | some c => some (r, c)
    | none => searchRowsFor chars lines col rest

/-- `range(ln_idx - 1, max(-1, ln_idx - 15), -1)`: rows `i-1` down to `i-14`, clipped at 0. -/
def upRows (i : Nat) : List Nat := (List.range' (i - 14) (i - (i - 14))).reverse

/-- `range(ln_idx + 1, min(len(lines), ln_idx + 15))`. -/
def downRows (len i : Nat) : List Nat := List.range' (i + 1) (min len (i + 15) - (i + 1))

/-- `[ln_idx - 1, ln_idx + 1]` filtered by `0 <= r < len(lines)`. -/
def fallbackRows (len i : Nat) : List Nat :=
  (if 1 ≤ i ∧ i - 1 < len then [i - 1] else []) ++ (if i + 1 < len then [i + 1] else [])

/-- `get_closest_anchor(lines, ln_idx, col)`. -/
def getClosestAnchor (lines : List Line) (i col : Nat) : Option (Nat × Nat) :=
  match searchRowsFor SEARCH_CHARS lines col (upRows i) with
  | some a => some a
  | none =>
    match searchRowsFor SEARCH_CHARS lines col (downRows lines.length i) with
    | some a => some a
    | none => searchRowsFor FLOATING_CHARS lines col (fallbackRows lines.length i)

/-- 0-based indices of all lines covered by any box. -/
def boxLineIndices (boxes : List Box) : List Nat :=
  boxes.flatMap fun b => b.lines.map fun p => p.1 - 1

/-- `check_floating_verticals(lines, boxes, start_line, end_line)`. -/
def checkFloatingVerticals (lines : List Line) (boxes : List Box) (s e : Nat) :
    List AlignErr :=
  (scanRange s e lines.length).flatMap fun i =>
    if (boxLineIndices boxes).contains i then []
    else
      let line := lines.getD i []
      line.enum.filterMap fun p =>
        if FLOATING_CHARS.contains p.2 then
          match getClosestAnchor lines i p.1 with
          | some a => if a.2 = p.1 then none else some (i + 1, p.1, a.2, a.1 + 1, line)
          | none => none
        else none

/-- The per-line body of `fix_outer_width`: `none` when the line is skipped
(already at target width, or not matching the border pattern), otherwise the
replacement text. -/
def fixWidthLine (target : Nat) (txt : Line) : Option Line :=
  if txt.length = target then none
  else if lstrip txt = [] then none
  else if ¬ isLeftBorder ((lstrip txt).headD ' ') then none
  else if ¬ isRightBorder ((rstrip (lstrip txt)).getLastD ' ') then none
  else if txt.length < target then
    some (List.replicate (txt.length - (lstrip txt).length) ' ' ++
      (lstrip txt).headD ' ' :: ((lstrip txt).drop 1).dropLast ++
      List.replicate (target - txt.length) ' ' ++
      [(rstrip (lstrip txt)).getLastD ' '])
  else
    some (List.replicate (txt.length - (lstrip txt).length) ' ' ++
      (lstrip txt).headD ' ' :: rstrip (((lstrip txt).drop 1).dropLast) ++
      List.replicate ((((lstrip txt).drop 1).dropLast).length -
        (rstrip (((lstrip txt).drop 1).dropLast)).length + target - txt.length) ' ' ++
      [(rstrip (lstrip txt)).getLastD ' '])

/-- The line loop of `fix_outer_width`: each box line is either skipped or its
buffer slot `ln - 1` is overwritten. -/
def fixOuterGo (target : Nat) : List (Nat × Line) → List Line → Nat → List Line × Nat
  | [], buf, n => (buf, n)
  | p :: rest, buf, n =>
    match fixWidthLine target p.2 with
    | none => fixOuterGo target rest buf n
    | some nl => fixOuterGo target rest (buf.set (p.1 - 1) nl) (n + 1)

/-- `fix_outer_width(lines, box)` (with the default `target_width=box['width']`):
returns the mutated buffer and the fix count. -/
def fixOuterWidth (lines : List Line) (box : Box) : List Line × Nat :=
  fixOuterGo box.width box.lines lines 0

/-- `box['lines'] = [(ln, all_lines[ln - 1]) for ln, _ in box['lines']]`
(performed by `main` between fix passes). -/
def refreshBox (buf : List Line) (box : Box) : Box :=
  { box with lines := box.lines.map fun p => (p.1, buf.getD (p.1 - 1) []) }

/-- The segment-building loop shared by `fix_inner_alignment` and
`fix_floating_verticals`: pairs are `((cur_p, cur_ch), (tgt_p, tgt_ch))`;
each segment is `(tgt_p, cur_ch, txt[prev_end:cur_p])`. -/
def buildSegments (txt : Line) : Nat → List ((Nat × Char) × (Nat × Char)) →
    List (Nat × Char × Line)
  | _, [] => []
  | prevEnd, (cur, tgt) :: rest =>
    (tgt.1, cur.2, (txt.drop prevEnd).take (cur.1 - prevEnd)) ::
      buildSegments txt (cur.1 + 1) rest

/-- `trailing = txt[prev_end:]` where `prev_end` is one past the last glyph. -/
def trailingAfter (txt : Line) (ps : List (Nat × Char)) : Line :=
  match ps.getLast? with
  | some q => txt.drop (q.1 + 1)
  | none => txt

/-- The placement loop shared by both fixers: each segment's content is padded
or white-space-trimmed so its glyph lands at the target column. -/
def placeSegments : Nat → List (Nat × Char × Line) → Line
  | _, [] => []
  | pos, (tgt, ch, content) :: rest =>
    let needed := tgt - pos
    let content' :=
      if content.length < needed then content ++ List.replicate (needed - content.length) ' '
      else if needed < content.length then
        rstrip content ++ List.replicate (needed - (rstrip content).length) ' '
      else content
    content' ++ ch :: placeSegments (tgt + 1) rest

/-- The per-member body of `fix_inner_alignment`.
`none` models the `ValueError` raised by `max()` over an empty sequence;
`some none` is a skipped line; `some (some l)` is the rebuilt replacement. -/
def fixInnerLine (targetWidth : Nat) (refTxt : Line) (refCols : List Nat) (txt : Line) :
    Option (Option Line) :=
  let curCols := (getBorderPositions txt true).map Prod.fst
  if curCols.length ≠ refCols.length then some none
  else if (refCols.zip curCols).all fun q => q.1 = q.2 then some none
  else
    let allCur := allBorderPositions txt
    let allRef := allBorderPositions refTxt
    if allCur.length ≠ allRef.length then some none
    else
      let segments := buildSegments txt 0 (allCur.zip allRef)
      let rebuilt := placeSegments 0 segments ++ trailingAfter txt allCur
      if rebuilt.length < targetWidth then
        match rightmostIdx rebuilt with
        | none => none
        | some lb =>
          some (some (rebuilt.take lb ++
            List.replicate (targetWidth - rebuilt.length) ' ' ++ rebuilt.drop lb))
      else if targetWidth < rebuilt.length then
        match rightmostIdx rebuilt with
        | none => none
        | some lb =>
          let before := rstrip (rebuilt.take lb)
          let after := rebuilt.drop lb
          some (some (before ++
            List.replicate ((targetWidth - before.length) - after.length) ' ' ++ after))
      else some (some rebuilt)

/-- The member loop of `fix_inner_alignment` for one group. -/
def fixInnerGroupGo (tw : Nat) (refTxt : Line) (refCols : List Nat) :
    List (Nat × Line) → List Line → Nat → Except (List Line) (List Line × Nat)
  | [], buf, n => .ok (buf, n)
  | p :: rest, buf, n =>
    match fixInnerLine tw refTxt refCols p.2 with
    | none => .error buf
    | some none => fixInnerGroupGo tw refTxt refCols rest buf n
    | some (some nl) => fixInnerGroupGo tw refTxt refCols rest (buf.set (p.1 - 1) nl) (n + 1)

/-- The group loop of `fix_inner_alignment`. -/
def fixInnerGroupsGo (tw : Nat) :
    List (List (Nat × Line)) → List Line → Nat → Except (List Line) (List Line × Nat)
  | [], buf, n => .ok (buf, n)
  | [] :: rest, buf, n => fixInnerGroupsGo tw rest buf n
  | [_] :: rest, buf, n => fixInnerGroupsGo tw rest buf n
  | (r :: m :: ms) :: rest, buf, n =>
    if lineCols r.2 = [] then fixInnerGroupsGo tw rest buf n
    else
      match fixInnerGroupGo tw r.2 (lineCols r.2) (m :: ms) buf n with
      | .error b => .error b
      | .ok bn => fixInnerGroupsGo tw rest bn.1 bn.2

/-- `fix_inner_alignment(lines, box)`; `.error b` models the `ValueError`
escape with `b` the buffer at that moment. -/
def fixInnerAlignment (lines : List Line) (box : Box) :
    Except (List Line) (List Line × Nat) :=
  fixInnerGroupsGo box.width (findInnerBoxGroups box) lines 0

/-- The buffer left behind by `fix_inner_alignment`, whether or not it raised. -/
def exceptBuf : Except (List Line) (List Line × Nat) → List Line
  | .error b => b
  | .ok bn => bn.1

/-- The per-line body of `fix_floating_verticals`: `none` when nothing on the
line needs moving, otherwise the rebuilt line. -/
def fixFloatLine (buf : List Line) (i : Nat) : Option Line :=
  let line := buf.getD i []
  let charsToMove := line.enum.filterMap fun p =>
    if FLOATING_CHARS.contains p.2 then
      match getClosestAnchor buf i p.1 with
      | some a => if a.2 = p.1 then none else some (p.1, p.2, a.2)
      | none => none
    else none
  if charsToMove = [] then none
  else
    let allCur := line.enum.filter fun p => FLOATING_CHARS.contains p.2
    let targets := allCur.map fun p =>
      match getClosestAnchor buf i p.1 with
      | some a => (a.2, p.2)
      | none => (p.1, p.2)
    let segments := buildSegments line 0 (allCur.zip targets)
    some (placeSegments 0 segments ++ trailingAfter line allCur)

/-- The line loop of `fix_floating_verticals` (later iterations observe the
mutations made by earlier ones, as in the source). -/
def fixFloatGo (boxIdxs : List Nat) : List Nat → List Line → Nat → List Line × Nat
  | [], buf, n => (buf, n)
  | i :: rest, buf, n =>
    if boxIdxs.contains i then fixFloatGo boxIdxs rest buf n
    else
      match fixFloatLine buf i with
      | none => fixFloatGo boxIdxs rest buf n
      | some nl => fixFloatGo boxIdxs rest (buf.set i nl) (n + 1)

/-- `fix_floating_verticals(lines, boxes, start_line, end_line)`. -/
def fixFloatingVerticals (lines : List Line) (boxes : List Box) (s e : Nat) :
    List Line × Nat :=
  fixFloatGo (boxLineIndices boxes) (scanRange s e lines.length) lines 0

/-- Convert a string literal to a `Line`. -/
def toL (s : String) : Line := s.data

/-- True when `fix_inner_alignment` raises (the `.error` escape). -/
def isRaise : Except (List Line) (List Line × Nat) → Bool
  | .error _ => true
  | .ok _ => false

/-! ### Concrete diagrams used by the claims -/

/-- The three-line buffer of literal scenario A (line 2 is one column short). -/
def demoA : List Line := [toL "┌──────┐", toL "│ AB  │", toL "└──────┘"]

/-- The single box scanned from `demoA`. -/
def demoABox : Box := (findBoxes demoA 1 3).headD default

/-- A scanned box whose inner group contains a member line `"▼▼"` with border
glyphs but no right-border glyph: rebuilding it makes `fix_inner_alignment`
evaluate `max()` over an empty sequence. -/
def demoCrash : List Line := [toL "┌─────┐", toL " ┌┬", toL "▼▼", toL "x└", toL "└─────┘"]

/-- The single box scanned from `demoCrash`. -/
def demoCrashBox : Box := (findBoxes demoCrash 1 5).headD default

/-- A box whose first line carries trailing whitespace after its right border. -/
def demoTrail : List Line := [toL "┌┐ ", toL "││", toL "└┘"]

/-- The single box scanned from `demoTrail`. -/
def demoTrailBox : Box := (findBoxes demoTrail 1 3).headD default

/-- A box whose second line `"│ "` has raw length equal to the box width but a
right border column short of it. -/
def demoSkip : List Line := [toL "┌┐", toL "│ ", toL "└┘"]

/-- The single box scanned from `demoSkip`. -/
def demoSkipBox : Box := (findBoxes demoSkip 1 3).headD default

/-- A box on lines 1-3 plus a floating `│` on line 4, misaligned with the `└`
junction of the box's bottom border. -/
def demoFloat : List Line := [toL "┌┬┐", toL "│ │", toL "└┴┘", toL " │"]

/-- A closed box on lines 1-2 followed by an opener on line 3 that never
closes before the range ends. -/
def demoOpen : List Line := [toL "┌┐", toL "└┘", toL "┌┐"]

/-- A box with an inner group whose member line 3 has the same border-glyph
count as the reference line 2 but shifted columns. -/
def demoInner : List Line :=
  [toL "┌─────┐", toL "│ ┌┐  │", toL "│  ││ │", toL "│ └┘  │", toL "└─────┘"]

/-- The single box scanned from `demoInner`. -/
def demoInnerBox : Box := (findBoxes demoInner 1 5).headD default

/-- The condition under which `get_border_positions` drops the first and last
entries: the position list has at least two entries, the first entry's glyph is
a left-border glyph and the last entry's glyph is a right-border glyph. -/
def dropsOuter (ps : List (Nat × Char)) : Bool :=
  decide (2 ≤ ps.length) && isLeftBorder (ps.headD (0, ' ')).2 &&
    isRightBorder (ps.getLastD (0, ' ')).2

/-- The effect of `fix_outer_width` on one box line: the replacement text, or
the line itself when it is skipped. -/
def fixedLine (target : Nat) (txt : Line) : Line := (fixWidthLine target txt).getD txt

/-- The border pattern of §4.5: optional leading whitespace, then a left-border
glyph, interior content, and a right-most non-whitespace character that is a
right-border glyph (the blank defaults make the empty cases false, since a
space is in neither border set). -/
def matchesBorder (txt : Line) : Bool :=
  isLeftBorder ((lstrip txt).headD ' ') &&
    isRightBorder ((rstrip (lstrip txt)).getLastD ' ')

/-- The left-trimmed line has at least two characters (so the left and right
border glyphs of the pattern are distinct characters). -/
def twoGlyph (txt : Line) : Bool := decide (2 ≤ (lstrip txt).length)

/-- The raw line ends in a right-border glyph (no trailing whitespace after
the right border). -/
def endsRightBorder (txt : Line) : Bool :=
  match txt.getLast? with
  | some c => isRightBorder c
  | none => false

/-- Right-trimming the interior's trailing whitespace can shrink the line to
exactly the target width. -/
def shrinkable (target : Nat) (txt : Line) : Bool :=
  decide ((txt.length - (lstrip txt).length) + 2 +
    (rstrip (((lstrip txt).drop 1).dropLast)).length ≤ target)

/-- A box-line record agrees with the buffer: its 1-based line number is a
valid index and its recorded text is the buffer's line there. -/
def entryOK (lines : List Line) (p : Nat × Line) : Prop :=
  1 ≤ p.1 ∧ p.1 - 1 < lines.length ∧ lines.getD (p.1 - 1) [] = p.2

/-- The column window of the anchor search on row `r`. -/
def windowCols (lines : List Line) (col r : Nat) : List Nat :=
  colRange (lines.getD r []).length col

/-- The `(row, column)` points of one row of the anchor-search window, in
left-to-right scan order. -/
def rowPoints (lines : List Line) (col r : Nat) : List (Nat × Nat) :=
  (windowCols lines col r).map fun c => (r, c)

/-- The upward anchor-search window: rows `i-1` down to `i-14`, nearer rows
first, columns `col-3 … col+3` left to right within each row. -/
def upWindow (lines : List Line) (i col : Nat) : List (Nat × Nat) :=
  (upRows i).flatMap (rowPoints lines col)

/-- The downward anchor-search window: rows `i+1` to `i+14`, nearer rows
first, columns `col-3 … col+3` left to right within each row. -/
def downWindow (lines : List Line) (i col : Nat) : List (Nat × Nat) :=
  (downRows lines.length i).flatMap (rowPoints lines col)

/-- The character at a window point is a structural junction glyph. -/
def isJunctionAt (lines : List Line) (p : Nat × Nat) : Bool :=
  SEARCH_CHARS.contains ((lines.getD p.1 []).getD p.2 ' ')

/-- Scan invariant for a still-open box when the next index to process is `a`:
its recorded lines agree with the buffer, have strictly increasing line
numbers bounded by `a`, and its width is its first line's raw length. -/
def pboxInv (lines : List Line) (a : Nat) (pb : PBox) : Prop :=
  pb.lines ≠ [] ∧
  List.Pairwise (fun p q => p.1 < q.1) pb.lines ∧
  (∀ p ∈ pb.lines, entryOK lines p ∧ p.1 ≤ a) ∧
  pb.width = (pb.lines.headD (0, [])).2.length

/-- What the scan guarantees about an emitted box: it was closed at index `j`
by a closer line, its recorded lines agree with the buffer, have strictly
increasing line numbers bounded by `j + 1`, and its width is its first line's
raw length. -/
def boxSpec (lines : List Line) (b : Box) (j : Nat) : Prop :=
  isCloserLine (lines.getD j []) = true ∧
  b.lines ≠ [] ∧
  List.Pairwise (fun p q => p.1 < q.1) b.lines ∧
  (∀ p ∈ b.lines, entryOK lines p ∧ p.1 ≤ j + 1) ∧
  b.width = (b.lines.headD (0, [])).2.length

/-! ### Claim theorems -/

/-- C2 counterexample: on the literal scenario A buffer, `check_outer_width`
does not report `(line 2, actualWidth 8, expectedWidth 9)` as the claim states
(the strings are 8, 7 and 8 characters long, so the code reports actual 7 and
expected 8), and the rewritten line 2 does not have length 9. -/
theorem c2_counterexample :
    checkOuterWidth demoABox ≠ [(2, 8, 9, toL "│ AB  │")] ∧
    ((fixOuterWidth demoA demoABox).1.getD 1 []).length ≠ 9 := by decide

/-- C2 amended: for the literal scenario A buffer scanned as one box,
`check_outer_width` reports exactly one error, on line 2, with actualWidth 7
and expectedWidth 8 (signed difference -1), and `fix_outer_width` rewrites
line 2 to `"│ AB   │"`, a string of length 8, leaving lines 1 and 3
unchanged. -/
theorem c2_literal_scenario_amended :
    (findBoxes demoA 1 3).length = 1 ∧
    checkOuterWidth demoABox = [(2, 7, 8, toL "│ AB  │")] ∧
    7 + 1 = 8 ∧
    (fixOuterWidth demoA demoABox).1 = [toL "┌──────┐", toL "│ AB   │", toL "└──────┘"] ∧
    (toL "│ AB   │").length = 8 ∧
    (fixOuterWidth demoA demoABox).2 = 1 := by decide

/-- C3: the core is not failure-free.  On the box scanned from `demoCrash`,
`fix_inner_alignment` reaches `max(i for i, c in enumerate(rebuilt) if c in
RIGHT_BORDER)` with a rebuilt line `" ▼▼"` containing no right-border glyph
and raises `ValueError` (modelled as the `.error` escape), leaving the buffer
as it was. -/
theorem c3_fixInnerAlignment_raises :
    isRaise (fixInnerAlignment demoCrash demoCrashBox) = true ∧
    exceptBuf (fixInnerAlignment demoCrash demoCrashBox) = demoCrash ∧
    demoCrashBox ∈ findBoxes demoCrash 1 5 := by decide

/-- C4 counterexample: the line `"│┐ "` does not end with a right-border glyph
(its last character is a space), yet `get_border_positions` drops the first
and last entries, returning `[]` instead of the full list `[(0,'│'), (1,'┐')]`
that the claim requires for such a line. -/
theorem c4_counterexample :
    (toL "│┐ ").getLast? = some ' ' ∧
    isRightBorder ' ' = false ∧
    allBorderPositions (toL "│┐ ") = [(0, '│'), (1, '┐')] ∧
    getBorderPositions (toL "│┐ ") true = [] := by decide

/-- C4 amended: `get_border_positions` with `inner_only` drops the first and
last entries exactly when the computed position list has at least two entries,
its first entry's glyph is a left-border glyph and its last entry's glyph is a
right-border glyph — regardless of where those glyphs sit in the line;
otherwise the full ordered list of border-glyph columns is kept. -/
theorem c4_drop_condition_amended (line : Line) :
    (dropsOuter (allBorderPositions line) = true →
      getBorderPositions line true = (allBorderPositions line).tail.dropLast) ∧
    (dropsOuter (allBorderPositions line) = false →
      getBorderPositions line true = allBorderPositions line) := by
  constructor <;> intro h
  · by_cases hl : line = []
    · subst hl
      exact absurd h (by decide)
    · unfold dropsOuter at h
      simp only [getBorderPositions, if_neg hl, Bool.true_and]
      rw [if_pos h]
  · by_cases hl : line = []
    · subst hl
      simp [getBorderPositions, allBorderPositions]
    · unfold dropsOuter at h
      simp only [getBorderPositions, if_neg hl, Bool.true_and]
      rw [if_neg (by rw [h]; exact Bool.false_ne_true)]

/-- C4 witness: on `"│ ┌┐ │"` the drop condition holds and the two outer
entries are removed. -/
theorem c4_drop_condition_witness :
    dropsOuter (allBorderPositions (toL "│ ┌┐ │")) = true ∧
    getBorderPositions (toL "│ ┌┐ │") true = [(2, '┌'), (3, '┐')] := by
  refine ⟨by decide, ?_⟩
  rw [(c4_drop_condition_amended (toL "│ ┌┐ │")).1 (by decide)]
  decide

/-- C10: `get_closest_anchor` is not restricted by boxes or by the requested
range.  On `demoFloat`, the floating `│` of line 4 is anchored to the `└` at
row 3 column 0, a line that belongs to the detected box; and when only line 4
is requested (range 4-4), the anchor is still found on line 3, outside the
requested range. -/
theorem c10_anchor_search_ignores_boxes_and_range :
    (checkFloatingVerticals demoFloat (findBoxes demoFloat 1 4) 1 4 =
        [(4, 1, 0, 3, toL " │")] ∧
      (3, toL "└┴┘") ∈ ((findBoxes demoFloat 1 4).headD default).lines) ∧
    (checkFloatingVerticals demoFloat [] 4 4 = [(4, 1, 0, 3, toL " │")] ∧ 3 < 4) :=
  ⟨⟨by decide, by decide⟩, by decide, by decide⟩

/-! ### Buffer-shape lemmas for the fixers -/

theorem fixOuterGo_length (t : Nat) :
    ∀ (ps : List (Nat × Line)) (buf : List Line) (n : Nat),
      ((fixOuterGo t ps buf n).1).length = buf.length := by
  intro ps
  induction ps with
  | nil => intro buf n; rfl
  | cons p rest ih =>
    intro buf n
    unfold fixOuterGo
    cases hw : fixWidthLine t p.2 with
    | none => exact ih buf n
    | some nl => simpa using ih (buf.set (p.1 - 1) nl) (n + 1)

theorem fixOuterGo_frame (t : Nat) :
    ∀ (ps : List (Nat × Line)) (buf : List Line) (n i : Nat) (d : Line),
      (∀ p ∈ ps, fixWidthLine t p.2 = none ∨ p.1 - 1 ≠ i) →
      ((fixOuterGo t ps buf n).1).getD i d = buf.getD i d := by
  intro ps
  induction ps with
  | nil => intro buf n i d _; rfl
  | cons p rest ih =>
    intro buf n i d h
    unfold fixOuterGo
    cases hw : fixWidthLine t p.2 with
    | none => exact ih buf n i d fun q hq => h q (List.mem_cons_of_mem _ hq)
    | some nl =>
      have hne : p.1 - 1 ≠ i := by
        rcases h p (List.mem_cons_self _ _) with h' | h'
        · rw [hw] at h'; cases h'
        · exact h'
      rw [ih (buf.set (p.1 - 1) nl) (n + 1) i d fun q hq => h q (List.mem_cons_of_mem _ hq)]
      simp [List.getD_eq_getElem?_getD, List.getElem?_set_ne hne]

theorem fixFloatGo_length (bi : List Nat) :
    ∀ (idxs : List Nat) (buf : List Line) (n : Nat),
      ((fixFloatGo bi idxs buf n).1).length = buf.length := by
  intro idxs
  induction idxs with
  | nil => intro buf n; rfl
  | cons i rest ih =>
    intro buf n
    unfold fixFloatGo
    by_cases hb : bi.contains i
    · rw [if_pos hb]; exact ih buf n
    · rw [if_neg hb]
      cases hw : fixFloatLine buf i with
      | none => exact ih buf n
      | some nl => simpa using ih (buf.set i nl) (n + 1)

theorem fixFloatGo_frame (bi : List Nat) :
    ∀ (idxs : List Nat) (buf : List Line) (n j : Nat) (d : Line),
      j ∉ idxs → ((fixFloatGo bi idxs buf n).1).getD j d = buf.getD j d := by
  intro idxs
  induction idxs with
  | nil => intro buf n j d _; rfl
  | cons i rest ih =>
    intro buf n j d hj
    have hji : j ≠ i := fun h => hj (h ▸ List.mem_cons_self _ _)
    have hjr : j ∉ rest := fun h => hj (List.mem_cons_of_mem _ h)
    unfold fixFloatGo
    by_cases hb : bi.contains i
    · rw [if_pos hb]; exact ih buf n j d hjr
    · rw [if_neg hb]
      cases hw : fixFloatLine buf i with
      | none => exact ih buf n j d hjr
      | some nl =>
        rw [ih (buf.set i nl) (n + 1) j d hjr]
        simp [List.getD_eq_getElem?_getD, List.getElem?_set_ne (Ne.symm hji)]

theorem fixInnerGroupGo_length (tw : Nat) (rt : Line) (rc : List Nat) :
    ∀ (ms : List (Nat × Line)) (buf : List Line) (n : Nat),
      (exceptBuf (fixInnerGroupGo tw rt rc ms buf n)).length = buf.length := by
  intro ms
  induction ms with
  | nil => intro buf n; rfl
  | cons p rest ih =>
    intro buf n
    unfold fixInnerGroupGo
    cases hw : fixInnerLine tw rt rc p.2 with
    | none => rfl
    | some o =>
      cases o with
      | none => exact ih buf n
      | some nl => simpa using ih (buf.set (p.1 - 1) nl) (n + 1)

theorem fixInnerGroupGo_frame (tw : Nat) (rt : Line) (rc : List Nat) :
    ∀ (ms : List (Nat × Line)) (buf : List Line) (n i : Nat) (d : Line),
      (∀ p ∈ ms, p.1 - 1 ≠ i) →
      (exceptBuf (fixInnerGroupGo tw rt rc ms buf n)).getD i d = buf.getD i d := by
  intro ms
  induction ms with
  | nil => intro buf n i d _; rfl
  | cons p rest ih =>
    intro buf n i d h
    unfold fixInnerGroupGo
    cases hw : fixInnerLine tw rt rc p.2 with
    | none => rfl
    | some o =>
      cases o with
      | none => exact ih buf n i d fun q hq => h q (List.mem_cons_of_mem _ hq)
      | some nl =>
        rw [ih (buf.set (p.1 - 1) nl) (n + 1) i d fun q hq => h q (List.mem_cons_of_mem _ hq)]
        simp [List.getD_eq_getElem?_getD,
          List.getElem?_set_ne (h p (List.mem_cons_self _ _))]

theorem fixInnerGroupsGo_length (tw : Nat) :
    ∀ (gs : List (List (Nat × Line))) (buf : List Line) (n : Nat),
      (exceptBuf (fixInnerGroupsGo tw gs buf n)).length = buf.length := by
  intro gs
  induction gs with
  | nil => intro buf n; rfl
  | cons g rest ih =>
    intro buf n
    match g with
    | [] => exact ih buf n
    | [x] => exact ih buf n
    | r :: m :: ms =>
      unfold fixInnerGroupsGo
      by_cases hrc : lineCols r.2 = []
      · rw [if_pos hrc]; exact ih buf n
      · rw [if_neg hrc]
        cases hg : fixInnerGroupGo tw r.2 (lineCols r.2) (m :: ms) buf n with
        | error b =>
          have := fixInnerGroupGo_length tw r.2 (lineCols r.2) (m :: ms) buf n
          rw [hg] at this
          exact this
        | ok bn =>
          have hlen := fixInnerGroupGo_length tw r.2 (lineCols r.2) (m :: ms) buf n
          rw [hg] at hlen
          rw [ih bn.1 bn.2]
          exact hlen

theorem fixInnerGroupsGo_frame (tw : Nat) :
    ∀ (gs : List (List (Nat × Line))) (buf : List Line) (n i : Nat) (d : Line),
      (∀ g ∈ gs, ∀ p ∈ g, p.1 - 1 ≠ i) →
      (exceptBuf (fixInnerGroupsGo tw gs buf n)).getD i d = buf.getD i d := by
  intro gs
  induction gs with
  | nil => intro buf n i d _; rfl
  | cons g rest ih =>
    intro buf n i d h
    have hrest : ∀ g' ∈ rest, ∀ p ∈ g', p.1 - 1 ≠ i :=
      fun g' hg' => h g' (List.mem_cons_of_mem _ hg')
    match g with
    | [] => exact ih buf n i d hrest
    | [x] => exact ih buf n i d hrest
    | r :: m :: ms =>
      have hmem : ∀ p ∈ (m :: ms), p.1 - 1 ≠ i := fun p hp =>
        h (r :: m :: ms) (List.mem_cons_self _ _) p (List.mem_cons_of_mem _ hp)
      unfold fixInnerGroupsGo
      by_cases hrc : lineCols r.2 = []
      · rw [if_pos hrc]; exact ih buf n i d hrest
      · rw [if_neg hrc]
        cases hg : fixInnerGroupGo tw r.2 (lineCols r.2) (m :: ms) buf n with
        | error b =>
          have := fixInnerGroupGo_frame tw r.2 (lineCols r.2) (m :: ms) buf n i d hmem
          rw [hg] at this
          exact this
        | ok bn =>
          have hstep := fixInnerGroupGo_frame tw r.2 (lineCols r.2) (m :: ms) buf n i d hmem
          rw [hg] at hstep
          rw [ih bn.1 bn.2 i d hrest]
          exact hstep

/-- The concatenation of the groups found by `find_inner_box_groups` embeds,
in order, into the interior lines it was computed from. -/
theorem innerGroupsGo_flatten_sublist :
    ∀ (rest : List (Nat × Line)) (b : Bool) (cur : List (Nat × Line))
      (acc : List (List (Nat × Line))),
      ((innerGroupsGo rest b cur acc).flatten).Sublist (acc.flatten ++ cur ++ rest) := by
  intro rest
  induction rest with
  | nil =>
    intro b cur acc
    show acc.flatten.Sublist (acc.flatten ++ cur ++ [])
    simpa using List.sublist_append_left acc.flatten cur
  | cons p rest ih =>
    intro b cur acc
    unfold innerGroupsGo
    by_cases ht : hasTopGlyph (innerOf p.2)
    · rw [if_pos ht]
      refine (ih true [p] acc).trans ?_
      have h1 : List.Sublist ([p] ++ rest) (cur ++ (p :: rest)) := by
        simpa using List.sublist_append_right cur (p :: rest)
      simpa [List.append_assoc] using h1.append_left acc.flatten
    · rw [if_neg ht]
      by_cases hb : hasBottomGlyph (innerOf p.2) && b
      · rw [if_pos hb]
        refine (ih false [] (acc ++ [cur ++ [p]])).trans ?_
        simp [List.append_assoc]
      · rw [if_neg hb]
        by_cases hv : b && hasVertGlyph (innerOf p.2)
        · rw [if_pos hv]
          refine (ih b (cur ++ [p]) acc).trans ?_
          simp [List.append_assoc]
        · rw [if_neg hv]
          refine (ih b cur acc).trans ?_
          have h2 : List.Sublist (cur ++ rest) (cur ++ p :: rest) :=
            (List.Sublist.refl cur).append (List.sublist_cons_self p rest)
          simpa [List.append_assoc] using h2.append_left acc.flatten

/-- Every line of every inner group is one of the box's interior lines. -/
theorem mem_findInnerBoxGroups_subset (box : Box) :
    ∀ g ∈ findInnerBoxGroups box, ∀ p ∈ g, p ∈ box.lines := by
  intro g hg p hp
  have h1 : (findInnerBoxGroups box).flatten.Sublist ((box.lines.drop 1).dropLast) := by
    have := innerGroupsGo_flatten_sublist ((box.lines.drop 1).dropLast) false [] []
    simpa [findInnerBoxGroups] using this
  have h2 : p ∈ (findInnerBoxGroups box).flatten := by
    exact List.mem_flatten.mpr ⟨g, hg, hp⟩
  have h3 : p ∈ (box.lines.drop 1).dropLast := h1.subset h2
  exact List.drop_subset 1 box.lines (List.dropLast_subset _ h3)

/-- C8: each fixer preserves the number of lines in the buffer, and writes
only at the buffer slots of the lines it was given (the box's lines for the
width and inner-alignment fixers, the requested range for the floating-vertical
fixer): no line is inserted, deleted, or moved to another position. -/
theorem c8_fixers_preserve_buffer_shape (lines : List Line) (box : Box)
    (boxes : List Box) (s e : Nat) :
    ((fixOuterWidth lines box).1).length = lines.length ∧
    (exceptBuf (fixInnerAlignment lines box)).length = lines.length ∧
    ((fixFloatingVerticals lines boxes s e).1).length = lines.length ∧
    (∀ i d, (∀ p ∈ box.lines, p.1 - 1 ≠ i) →
      ((fixOuterWidth lines box).1).getD i d = lines.getD i d) ∧
    (∀ i d, (∀ p ∈ box.lines, p.1 - 1 ≠ i) →
      (exceptBuf (fixInnerAlignment lines box)).getD i d = lines.getD i d) ∧
    (∀ i d, i ∉ scanRange s e lines.length →
      ((fixFloatingVerticals lines boxes s e).1).getD i d = lines.getD i d) := by
  refine ⟨fixOuterGo_length _ _ _ _, fixInnerGroupsGo_length _ _ _ _,
    fixFloatGo_length _ _ _ _, ?_, ?_, ?_⟩
  · intro i d h
    exact fixOuterGo_frame _ _ _ _ _ _ fun p hp => Or.inr (h p hp)
  · intro i d h
    refine fixInnerGroupsGo_frame _ _ _ _ _ _ fun g hg p hp => ?_
    exact h p (mem_findInnerBoxGroups_subset box g hg p hp)
  · intro i d h
    exact fixFloatGo_frame _ _ _ _ _ _ h

/-- C8 witness: on the scenario-A box all three fixers keep the three-line
buffer at three lines, and a slot outside the box (index 5) is untouched. -/
theorem c8_fixers_preserve_buffer_shape_witness :
    ((fixOuterWidth demoA demoABox).1).length = demoA.length ∧
    ((fixOuterWidth demoA demoABox).1).getD 5 [] = demoA.getD 5 [] ∧
    (exceptBuf (fixInnerAlignment demoA demoABox)).getD 5 [] = demoA.getD 5 [] ∧
    ((fixFloatingVerticals demoA [demoABox] 1 3).1).getD 5 [] = demoA.getD 5 [] := by
  have h := c8_fixers_preserve_buffer_shape demoA demoABox [demoABox] 1 3
  exact ⟨h.1, h.2.2.2.1 5 [] (by decide), h.2.2.2.2.1 5 [] (by decide),
    h.2.2.2.2.2 5 [] (by decide)⟩

/-! ### The scan invariant of `find_boxes` -/

theorem headD_append_of_ne_nil {α : Type} (l : List α) (x : α) (d : α) (h : l ≠ []) :
    (l ++ [x]).headD d = l.headD d := by
  cases l with
  | nil => exact absurd rfl h
  | cons a t => rfl

theorem findBoxesGo_spec (lines : List Line) :
    ∀ (n a : Nat) (st : Option PBox) (acc : List Box),
      (∀ j ∈ List.range' a n, j < lines.length) →
      (∀ pb, st = some pb → pboxInv lines a pb) →
      ∀ b ∈ findBoxesGo lines (List.range' a n) st acc,
        b ∈ acc ∨ ∃ j, a ≤ j ∧ j < a + n ∧ boxSpec lines b j := by
  intro n
  induction n with
  | zero =>
    intro a st acc _ _ b hb
    exact Or.inl (by simpa [findBoxesGo] using hb)
  | succ n ih =>
    intro a st acc hrange hinv b hb
    rw [List.range'_succ] at hb
    have ha : a < lines.length := hrange a (by rw [List.range'_succ]; exact List.mem_cons_self _ _)
    have hrange' : ∀ j ∈ List.range' (a + 1) n, j < lines.length := by
      intro j hj
      exact hrange j (by rw [List.range'_succ]; exact List.mem_cons_of_mem _ hj)
    have weaken : (b ∈ acc ∨ ∃ j, a + 1 ≤ j ∧ j < a + 1 + n ∧ boxSpec lines b j) →
        b ∈ acc ∨ ∃ j, a ≤ j ∧ j < a + (n + 1) ∧ boxSpec lines b j := by
      rintro (h | ⟨j, h1, h2, h3⟩)
      · exact Or.inl h
      · exact Or.inr ⟨j, by omega, by omega, h3⟩
    cases st with
    | none =>
      unfold findBoxesGo at hb
      by_cases ho : isOpenerLine (lines.getD a [])
      · rw [if_pos ho] at hb
        refine weaken (ih (a + 1) _ acc hrange' ?_ b hb)
        intro pb hpb
        cases hpb
        refine ⟨by simp, by simp, ?_, by simp⟩
        intro p hp
        rw [List.mem_singleton] at hp
        subst hp
        exact ⟨⟨by omega, by simpa using ha, by simp⟩, le_refl _⟩
      · rw [if_neg ho] at hb
        exact weaken (ih (a + 1) _ acc hrange' (by intro pb h; cases h) b hb)
    | some pb =>
      obtain ⟨hne, hpw, hmem, hwid⟩ := hinv pb rfl
      unfold findBoxesGo at hb
      by_cases hc : isCloserLine (lines.getD a [])
      · rw [if_pos hc] at hb
        have hstep := ih (a + 1) none _ hrange' (by intro pb' h; cases h) b hb
        rcases hstep with hacc | ⟨j, h1, h2, h3⟩
        · rw [List.mem_append] at hacc
          rcases hacc with h | h
          · exact Or.inl h
          · rw [List.mem_singleton] at h
            subst h
            refine Or.inr ⟨a, le_refl _, by omega, hc, by simp, ?_, ?_, ?_⟩
            · rw [List.pairwise_append]
              refine ⟨hpw, List.pairwise_singleton _ _, ?_⟩
              intro p hp q hq
              rw [List.mem_singleton] at hq
              subst hq
              have := (hmem p hp).2
              simpa using by omega
            · intro p hp
              rw [List.mem_append] at hp
              rcases hp with hp | hp
              · exact ⟨(hmem p hp).1, by have := (hmem p hp).2; omega⟩
              · rw [List.mem_singleton] at hp
                subst hp
                exact ⟨⟨by omega, by simpa using ha, by simp⟩, le_refl _⟩
            · rw [headD_append_of_ne_nil _ _ _ hne]
              exact hwid
        · exact Or.inr ⟨j, by omega, by omega, h3⟩
      · rw [if_neg hc] at hb
        refine weaken (ih (a + 1) _ acc hrange' ?_ b hb)
        intro pb' hpb'
        cases hpb'
        refine ⟨by simp, ?_, ?_, ?_⟩
        · rw [List.pairwise_append]
          refine ⟨hpw, List.pairwise_singleton _ _, ?_⟩
          intro p hp q hq
          rw [List.mem_singleton] at hq
          subst hq
          have := (hmem p hp).2
          simpa using by omega
        · intro p hp
          rw [List.mem_append] at hp
          rcases hp with hp | hp
          · exact ⟨(hmem p hp).1, by have := (hmem p hp).2; omega⟩
          · rw [List.mem_singleton] at hp
            subst hp
            exact ⟨⟨by omega, by simpa using ha, by simp⟩, le_refl _⟩
        · rw [headD_append_of_ne_nil _ _ _ hne]
          exact hwid

/-- Every box emitted by `find_boxes` satisfies the scan invariant, closed at
some index `j` inside the scanned range. -/
theorem findBoxes_spec (lines : List Line) (s e : Nat) :
    ∀ b ∈ findBoxes lines s e,
      ∃ j, s - 1 ≤ j ∧ j < min e lines.length ∧ boxSpec lines b j := by
  intro b hb
  unfold findBoxes scanRange at hb
  have hr : ∀ j ∈ List.range' (s - 1) (min e lines.length - (s - 1)), j < lines.length := by
    intro j hj
    obtain ⟨i, hi, rfl⟩ := List.mem_range'.mp hj
    omega
  rcases findBoxesGo_spec lines _ _ none [] hr (by intro pb h; cases h) b hb with
    h | ⟨j, h1, h2, h3⟩
  · cases h
  · exact ⟨j, h1, by omega, h3⟩

theorem opener_not_closer (l : Line) (h : isOpenerLine l = true) : isCloserLine l = false := by
  unfold isOpenerLine at h
  unfold isCloserLine
  cases hl : lstrip l with
  | nil => simp [hl] at h
  | cons c t =>
    rw [hl] at h
    have h' : (decide (c = '┌') || decide (c = '╔')) = true := h
    show (decide (c = '└') || decide (c = '╚')) = false
    simp only [Bool.or_eq_true, decide_eq_true_eq] at h'
    simp only [Bool.or_eq_false_iff, decide_eq_false_iff_not]
    rcases h' with rfl | rfl <;> exact ⟨by decide, by decide⟩

/-- C6: if a line in the scanned range whose left-trimmed content starts with
an outer top-left corner glyph is never followed, before the range ends, by a
line whose left-trimmed content starts with an outer bottom-left corner glyph,
then every emitted box lies strictly before that opener: the still-open box is
discarded, and no emitted box covers the opener's line or any later line. -/
theorem c6_unterminated_box_discarded (lines : List Line) (s e i : Nat)
    (_hs : 1 ≤ s) (hi1 : s - 1 ≤ i) (hi2 : i < min e lines.length)
    (hop : isOpenerLine (lines.getD i []) = true)
    (hnc : ∀ j, i < j → j < min e lines.length → isCloserLine (lines.getD j []) = false) :
    ∀ b ∈ findBoxes lines s e, ∀ p ∈ b.lines, p.1 ≤ i := by
  intro b hb p hp
  obtain ⟨j, hj1, hj2, hspec⟩ := findBoxes_spec lines s e b hb
  have hcl := hspec.1
  have hji : j < i := by
    rcases Nat.lt_trichotomy j i with h | h | h
    · exact h
    · subst h
      rw [opener_not_closer _ hop] at hcl
      cases hcl
    · rw [hnc j h hj2] at hcl
      cases hcl
  have hle := (hspec.2.2.2.1 p hp).2
  omega

/-- C6 witness: in `demoOpen` the opener on line 3 never closes, so every line
of the single emitted box (lines 1-2) has a line number at most 2: the
closed box's own closer line 2 is such a line. -/
theorem c6_unterminated_box_discarded_witness :
    ((2, toL "└┘") : Nat × Line).1 ≤ 2 := by
  have hnc : ∀ j, 2 < j → j < min 3 (demoOpen : List Line).length →
      isCloserLine ((demoOpen : List Line).getD j []) = false := by
    intro j h1 h2
    have hlen : (demoOpen : List Line).length = 3 := rfl
    rw [hlen] at h2
    exact absurd h1 (by omega)
  exact c6_unterminated_box_discarded demoOpen 1 3 2 (by decide) (by decide)
    (by decide) (by decide) hnc ((findBoxes demoOpen 1 3).headD default)
    (by decide) (2, toL "└┘") (by decide)

theorem fixWidthLine_eq_none (t : Nat) (txt : Line) (h : txt.length = t) :
    fixWidthLine t txt = none := by
  unfold fixWidthLine
  rw [if_pos h]

/-- C9: the target width of `fix_outer_width` is `box['width']`, the raw
character length (trailing whitespace included) of the box's first line as
recorded at scan time; any box line whose raw length already equals that
target is left completely unchanged — even one that `check_outer_width`
reports as a width error, as happens for line 2 of `demoSkip`, whose raw
length is 2 but whose right border sits at column 0. -/
theorem c9_raw_length_skip :
    (∀ (lines : List Line) (s e : Nat) (b : Box), b ∈ findBoxes lines s e →
      b.width = (b.lines.headD (0, [])).2.length ∧
      ∀ (buf : List Line) (d : Line) (p : Nat × Line), p ∈ b.lines →
        p.2.length = b.width →
        ((fixOuterWidth buf b).1).getD (p.1 - 1) d = buf.getD (p.1 - 1) d) ∧
    (checkOuterWidth demoSkipBox = [(2, 1, 2, toL "│ ")] ∧
      (2, toL "│ ") ∈ demoSkipBox.lines ∧
      (toL "│ ").length = demoSkipBox.width ∧
      (fixOuterWidth demoSkip demoSkipBox).1 = demoSkip ∧
      (fixOuterWidth demoSkip demoSkipBox).2 = 0) := by
  constructor
  · intro lines s e b hb
    obtain ⟨j, _, _, hspec⟩ := findBoxes_spec lines s e b hb
    refine ⟨hspec.2.2.2.2, ?_⟩
    intro buf d p hp hlen
    refine fixOuterGo_frame b.width b.lines buf 0 (p.1 - 1) d ?_
    intro q hq
    by_cases hfst : q.1 = p.1
    · left
      have hnd : (b.lines.map Prod.fst).Nodup := by
        have hpm : List.Pairwise (· < ·) (b.lines.map Prod.fst) :=
          (List.pairwise_map).mpr hspec.2.2.1
        exact hpm.imp Nat.ne_of_lt
      have hq_eq : q = p := List.inj_on_of_nodup_map hnd hq hp hfst
      subst hq_eq
      exact fixWidthLine_eq_none _ _ (by rw [hlen])
    · right
      have h1 : 1 ≤ q.1 := ((hspec.2.2.2.1 q hq).1).1
      have h2 : 1 ≤ p.1 := ((hspec.2.2.2.1 p hp).1).1
      omega
  · exact ⟨by decide, by decide, by decide, by decide, by decide⟩

/-- C9 witness: on `demoSkip` the box width is the first line's raw length,
and the flagged-but-already-target-length line 2 is untouched by the fixer. -/
theorem c9_raw_length_skip_witness :
    demoSkipBox.width = (demoSkipBox.lines.headD (0, [])).2.length ∧
    ((fixOuterWidth demoSkip demoSkipBox).1).getD 1 [] = demoSkip.getD 1 [] := by
  have h := c9_raw_length_skip.1 demoSkip 1 3 demoSkipBox (by decide)
  exact ⟨h.1, h.2 demoSkip [] (2, toL "│ ") (by decide) (by decide)⟩

/-! ### The anchor-search order of `get_closest_anchor` -/

theorem searchRowsFor_eq_find? (chars : List Char) (lines : List Line) (col : Nat) :
    ∀ rows : List Nat,
      searchRowsFor chars lines col rows =
        ((rows.flatMap (rowPoints lines col)).find? fun p =>
          chars.contains ((lines.getD p.1 []).getD p.2 ' ')) := by
  intro rows
  induction rows with
  | nil => rfl
  | cons r rest ih =>
    have hrow : List.find? (fun p => chars.contains ((lines.getD p.1 []).getD p.2 ' '))
        (rowPoints lines col r) =
        (searchRowFor chars (lines.getD r []) col).map fun c => (r, c) := by
      unfold rowPoints windowCols searchRowFor
      rw [List.find?_map]
      rfl
    rw [List.flatMap_cons, List.find?_append, hrow]
    unfold searchRowsFor
    cases hc : searchRowFor chars (lines.getD r []) col with
    | some c => rfl
    | none => simpa using ih

theorem mem_upWindow (lines : List Line) (i col : Nat) (p : Nat × Nat) :
    p ∈ upWindow lines i col ↔
      (p.1 + 1 ≤ i ∧ i ≤ p.1 + 14 ∧ col ≤ p.2 + 3 ∧
        p.2 < min (lines.getD p.1 []).length (col + 4)) := by
  unfold upWindow upRows rowPoints windowCols colRange
  simp only [List.mem_flatMap, List.mem_reverse, List.mem_map, List.mem_range']
  constructor
  · rintro ⟨r, ⟨k, hk, rfl⟩, c, ⟨m, hm, rfl⟩, rfl⟩
    dsimp only
    refine ⟨by omega, by omega, by omega, by omega⟩
  · rintro ⟨h1, h2, h3, h4⟩
    refine ⟨p.1, ⟨p.1 - (i - 14), by omega, by omega⟩,
      ⟨p.2, ⟨p.2 - (col - 3), by omega, by omega⟩, by simp⟩⟩

theorem mem_downWindow (lines : List Line) (i col : Nat) (p : Nat × Nat) :
    p ∈ downWindow lines i col ↔
      (i + 1 ≤ p.1 ∧ p.1 ≤ i + 14 ∧ p.1 < lines.length ∧ col ≤ p.2 + 3 ∧
        p.2 < min (lines.getD p.1 []).length (col + 4)) := by
  unfold downWindow downRows rowPoints windowCols colRange
  simp only [List.mem_flatMap, List.mem_map, List.mem_range']
  constructor
  · rintro ⟨r, ⟨k, hk, rfl⟩, c, ⟨m, hm, rfl⟩, rfl⟩
    dsimp only
    refine ⟨by omega, by omega, by omega, by omega, by omega⟩
  · rintro ⟨h1, h2, h3, h4, h5⟩
    refine ⟨p.1, ⟨p.1 - (i + 1), by omega, by omega⟩,
      ⟨p.2, ⟨p.2 - (col - 3), by omega, by omega⟩, by simp⟩⟩

/-- C5: the windows of `get_closest_anchor` are exactly rows `i-1 … i-14` /
`i+1 … i+14` restricted to columns `c-3 … c+3`; when the upward window holds a
junction glyph the result is the first one in its nearer-row-first,
left-to-right scan order (the downward window and the fallback are never
consulted); the downward window is searched only when the upward one holds no
junction glyph, and the immediate-neighbor fallback only when neither window
does. -/
theorem c5_anchor_search_order (lines : List Line) (i col : Nat) :
    (∀ p : Nat × Nat, p ∈ upWindow lines i col ↔
      (p.1 + 1 ≤ i ∧ i ≤ p.1 + 14 ∧ col ≤ p.2 + 3 ∧
        p.2 < min (lines.getD p.1 []).length (col + 4))) ∧
    ((∃ p ∈ upWindow lines i col, isJunctionAt lines p = true) →
      getClosestAnchor lines i col = (upWindow lines i col).find? (isJunctionAt lines)) ∧
    ((∀ p ∈ upWindow lines i col, isJunctionAt lines p = false) →
      (∃ p ∈ downWindow lines i col, isJunctionAt lines p = true) →
      getClosestAnchor lines i col = (downWindow lines i col).find? (isJunctionAt lines)) ∧
    ((∀ p ∈ upWindow lines i col, isJunctionAt lines p = false) →
      (∀ p ∈ downWindow lines i col, isJunctionAt lines p = false) →
      getClosestAnchor lines i col =
        searchRowsFor FLOATING_CHARS lines col (fallbackRows lines.length i)) := by
  have hup : searchRowsFor SEARCH_CHARS lines col (upRows i) =
      (upWindow lines i col).find? (isJunctionAt lines) :=
    searchRowsFor_eq_find? SEARCH_CHARS lines col (upRows i)
  have hdown : searchRowsFor SEARCH_CHARS lines col (downRows lines.length i) =
      (downWindow lines i col).find? (isJunctionAt lines) :=
    searchRowsFor_eq_find? SEARCH_CHARS lines col (downRows lines.length i)
  refine ⟨mem_upWindow lines i col, ?_, ?_, ?_⟩
  · intro hex
    have hsome : ((upWindow lines i col).find? (isJunctionAt lines)).isSome := by
      rw [List.find?_isSome]
      obtain ⟨p, hp, hj⟩ := hex
      exact ⟨p, hp, hj⟩
    obtain ⟨a, ha⟩ := Option.isSome_iff_exists.mp hsome
    unfold getClosestAnchor
    rw [hup, ha]
  · intro hnone hex
    have hupnone : (upWindow lines i col).find? (isJunctionAt lines) = none := by
      rw [List.find?_eq_none]
      intro x hx
      rw [hnone x hx]
      exact Bool.false_ne_true
    have hsome : ((downWindow lines i col).find? (isJunctionAt lines)).isSome := by
      rw [List.find?_isSome]
      obtain ⟨p, hp, hj⟩ := hex
      exact ⟨p, hp, hj⟩
    obtain ⟨a, ha⟩ := Option.isSome_iff_exists.mp hsome
    unfold getClosestAnchor
    rw [hup, hupnone, hdown, ha]
  · intro hnone1 hnone2
    have hupnone : (upWindow lines i col).find? (isJunctionAt lines) = none := by
      rw [List.find?_eq_none]
      intro x hx
      rw [hnone1 x hx]
      exact Bool.false_ne_true
    have hdownnone : (downWindow lines i col).find? (isJunctionAt lines) = none := by
      rw [List.find?_eq_none]
      intro x hx
      rw [hnone2 x hx]
      exact Bool.false_ne_true
    unfold getClosestAnchor
    rw [hup, hupnone, hdown, hdownnone]

/-- C5 witness: on `demoFloat`, the `└` of row 2 lies in the upward window of
the glyph at row 3, column 1, and the search returns it. -/
theorem c5_anchor_search_order_witness :
    getClosestAnchor demoFloat 3 1 = some (2, 0) := by
  have h := (c5_anchor_search_order demoFloat 3 1).2.1 ⟨(2, 0), by decide, by decide⟩
  rw [h]
  decide

/-! ### First-mismatch reporting of `check_inner_alignment` -/

theorem memberInnerError_key (refLn : Nat) (refCols : List Nat) (p : Nat × Line) :
    ∀ er ∈ memberInnerError refLn refCols p, er.1 = p.1 := by
  intro er her
  unfold memberInnerError at her
  by_cases h1 : (lineCols p.2).length = refCols.length
  · rw [if_pos h1] at her
    cases hfd : firstDiff (refCols.zip (lineCols p.2)) with
    | some d =>
      rw [hfd, List.mem_singleton] at her
      subst her
      rfl
    | none => rw [hfd] at her; cases her
  · rw [if_neg h1] at her
    by_cases h2 : 0 < (lineCols p.2).length ∧ 0 < refCols.length
    · rw [if_pos h2] at her
      by_cases h3 : (lineCols p.2).headD 0 ≠ refCols.headD 0 ∨
          (lineCols p.2).getLastD 0 ≠ refCols.getLastD 0
      · rw [if_pos h3, List.mem_singleton] at her
        subst her
        rfl
      · rw [if_neg h3] at her; cases her
    · rw [if_neg h2] at her; cases her

theorem groupInnerErrors_key :
    ∀ (g : List (Nat × Line)), ∀ er ∈ groupInnerErrors g, ∃ q ∈ g, er.1 = q.1 := by
  intro g er her
  match g with
  | [] => cases her
  | [r] => cases her
  | r :: m :: ms =>
    rw [show groupInnerErrors (r :: m :: ms) =
      (m :: ms).flatMap (memberInnerError r.1 (lineCols r.2)) from rfl] at her
    obtain ⟨q, hq, hmem⟩ := List.mem_flatMap.mp her
    exact ⟨q, List.mem_cons_of_mem _ hq, memberInnerError_key _ _ q er hmem⟩

theorem filter_key_groups_nil (gs : List (List (Nat × Line))) (key : Nat)
    (h : ∀ g ∈ gs, ∀ q ∈ g, q.1 ≠ key) :
    ((gs.flatMap groupInnerErrors).filter fun er => decide (er.1 = key)) = [] := by
  rw [List.filter_eq_nil_iff]
  intro er her
  obtain ⟨g, hg, hmem⟩ := List.mem_flatMap.mp her
  obtain ⟨q, hq, heq⟩ := groupInnerErrors_key g er hmem
  simp only [decide_eq_true_eq]
  rw [heq]
  exact h g hg q hq

theorem filter_key_members_nil (ms : List (Nat × Line)) (refLn : Nat)
    (refCols : List Nat) (key : Nat) (h : ∀ q ∈ ms, q.1 ≠ key) :
    ((ms.flatMap (memberInnerError refLn refCols)).filter fun er =>
      decide (er.1 = key)) = [] := by
  rw [List.filter_eq_nil_iff]
  intro er her
  obtain ⟨q, hq, hmem⟩ := List.mem_flatMap.mp her
  simp only [decide_eq_true_eq]
  rw [memberInnerError_key refLn refCols q er hmem]
  exact h q hq

theorem firstDiff_spec :
    ∀ (l : List (Nat × Nat)) (d : Nat × Nat), firstDiff l = some d →
      ∃ j, j < l.length ∧ l.getD j (0, 0) = d ∧ d.1 ≠ d.2 ∧
        ∀ k, k < j → (l.getD k (0, 0)).1 = (l.getD k (0, 0)).2 := by
  intro l
  induction l with
  | nil => intro d h; cases h
  | cons x rest ih =>
    intro d h
    unfold firstDiff at h
    by_cases hx : x.1 = x.2
    · rw [if_pos hx] at h
      obtain ⟨j, hj1, hj2, hj3, hj4⟩ := ih d h
      refine ⟨j + 1, by simpa using hj1, by simpa using hj2, hj3, ?_⟩
      intro k hk
      cases k with
      | zero => simpa using hx
      | succ k' => simpa using hj4 k' (by omega)
    · rw [if_neg hx] at h
      injection h with h
      subst h
      exact ⟨0, by simp, by simp, hx, fun k hk => absurd hk (by omega)⟩

/-- C7: for a group member line whose border-glyph column count equals the
reference's, `check_inner_alignment` reports at most one error for that line:
exactly the first position, in left-to-right order, where its column differs
from the reference column (nothing when none differs); later mismatched
columns on the same line are never reported.  The hypothesis that the box's
interior line numbers are distinct holds for every box built by `find_boxes`
(by `findBoxes_spec`). -/
theorem c7_first_mismatch_only (box : Box) (g : List (Nat × Line))
    (refLn : Nat) (refTxt : Line) (members : List (Nat × Line)) (p : Nat × Line)
    (hnd : (((box.lines.drop 1).dropLast).map Prod.fst).Nodup)
    (hg : g ∈ findInnerBoxGroups box)
    (hgeq : g = (refLn, refTxt) :: members)
    (hp : p ∈ members)
    (hlen : (lineCols p.2).length = (lineCols refTxt).length) :
    ((checkInnerAlignment box).filter fun er => decide (er.1 = p.1)) =
      (match firstDiff ((lineCols refTxt).zip (lineCols p.2)) with
        | some d => [(p.1, d.2, d.1, refLn, p.2)]
        | none => []) ∧
    (∀ d, firstDiff ((lineCols refTxt).zip (lineCols p.2)) = some d →
      ∃ j, j < ((lineCols refTxt).zip (lineCols p.2)).length ∧
        ((lineCols refTxt).zip (lineCols p.2)).getD j (0, 0) = d ∧ d.1 ≠ d.2 ∧
        ∀ k, k < j →
          (((lineCols refTxt).zip (lineCols p.2)).getD k (0, 0)).1 =
            (((lineCols refTxt).zip (lineCols p.2)).getD k (0, 0)).2) := by
  refine ⟨?_, fun d h => firstDiff_spec _ d h⟩
  have hsub : (findInnerBoxGroups box).flatten.Sublist ((box.lines.drop 1).dropLast) := by
    simpa [findInnerBoxGroups] using
      innerGroupsGo_flatten_sublist ((box.lines.drop 1).dropLast) false [] []
  have hndflat : ((findInnerBoxGroups box).flatten.map Prod.fst).Nodup :=
    (hsub.map Prod.fst).nodup hnd
  obtain ⟨l₁, l₂, hsplit⟩ := List.append_of_mem hg
  obtain ⟨m, ms, rfl⟩ : ∃ m ms, members = m :: ms := by
    cases members with
    | nil => cases hp
    | cons m ms => exact ⟨m, ms, rfl⟩
  obtain ⟨m₁, m₂, hmsplit⟩ := List.append_of_mem hp
  unfold checkInnerAlignment
  rw [hsplit, List.flatMap_append, List.flatMap_cons, List.filter_append,
    List.filter_append]
  rw [hsplit, List.flatten_append, List.flatten_cons, List.map_append,
    List.map_append] at hndflat
  have hpg : p ∈ g := by rw [hgeq]; exact List.mem_cons_of_mem _ hp
  have hpB : p.1 ∈ g.map Prod.fst := List.mem_map_of_mem _ hpg
  obtain ⟨hA, hBC, hdisjA⟩ := List.nodup_append.mp hndflat
  obtain ⟨hB, hC, hdisjBC⟩ := List.nodup_append.mp hBC
  have hleft : ((l₁.flatMap groupInnerErrors).filter fun er => decide (er.1 = p.1)) = [] := by
    refine filter_key_groups_nil l₁ p.1 ?_
    intro g' hg' q hq hqp
    have hqA : q.1 ∈ l₁.flatten.map Prod.fst :=
      List.mem_map_of_mem _ (List.mem_flatten.mpr ⟨g', hg', hq⟩)
    rw [hqp] at hqA
    exact hdisjA hqA (List.mem_append_left _ hpB)
  have hright : ((l₂.flatMap groupInnerErrors).filter fun er => decide (er.1 = p.1)) = [] := by
    refine filter_key_groups_nil l₂ p.1 ?_
    intro g' hg' q hq hqp
    have hqC : q.1 ∈ l₂.flatten.map Prod.fst :=
      List.mem_map_of_mem _ (List.mem_flatten.mpr ⟨g', hg', hq⟩)
    rw [hqp] at hqC
    exact hdisjBC hpB hqC
  rw [hleft, hright]
  simp only [List.nil_append, List.append_nil]
  rw [hgeq]
  rw [show groupInnerErrors ((refLn, refTxt) :: m :: ms) =
    (m :: ms).flatMap (memberInnerError refLn (lineCols refTxt)) from rfl]
  rw [hmsplit, List.flatMap_append, List.flatMap_cons, List.filter_append,
    List.filter_append]
  have hB' := hB
  rw [hgeq, hmsplit] at hB'
  simp only [List.map_cons, List.map_append] at hB'
  obtain ⟨-, hB2⟩ := List.nodup_cons.mp hB'
  obtain ⟨hm1, hm2c, hdisj12⟩ := List.nodup_append.mp hB2
  obtain ⟨hpnotm2, -⟩ := List.nodup_cons.mp hm2c
  have hmid1 : ((m₁.flatMap (memberInnerError refLn (lineCols refTxt))).filter fun er =>
      decide (er.1 = p.1)) = [] := by
    refine filter_key_members_nil _ _ _ _ ?_
    intro q hq hqp
    exact hdisj12 (List.mem_map_of_mem _ hq) (hqp ▸ List.mem_cons_self _ _)
  have hmid2 : ((m₂.flatMap (memberInnerError refLn (lineCols refTxt))).filter fun er =>
      decide (er.1 = p.1)) = [] := by
    refine filter_key_members_nil _ _ _ _ ?_
    intro q hq hqp
    exact hpnotm2 (hqp ▸ List.mem_map_of_mem _ hq)
  rw [hmid1, hmid2]
  simp only [List.nil_append, List.append_nil]
  unfold memberInnerError
  rw [if_pos (by rw [hlen])]
  cases hfd : firstDiff ((lineCols refTxt).zip (lineCols p.2)) with
  | some d => simp
  | none => rfl

/-- C7 witness: on `demoInner`, member line 3 of the inner group has equal
border counts with reference line 2; the whole check output filtered to line 3
is exactly one error, at the first mismatched column (column 3, expected 2). -/
theorem c7_first_mismatch_only_witness :
    ((checkInnerAlignment demoInnerBox).filter fun er => decide (er.1 = 3)) =
      [(3, 3, 2, 2, toL "│  ││ │")] := by
  have h := (c7_first_mismatch_only demoInnerBox
      [(2, toL "│ ┌┐  │"), (3, toL "│  ││ │"), (4, toL "│ └┘  │")]
      2 (toL "│ ┌┐  │") [(3, toL "│  ││ │"), (4, toL "│ └┘  │")] (3, toL "│  ││ │")
      (by decide) (by decide) (by decide) (by decide) (by decide)).1
  rw [h]
  decide

/-! ### `fix_outer_width` followed by `check_outer_width` -/

theorem lstrip_length_le (s : Line) : (lstrip s).length ≤ s.length :=
  (List.dropWhile_sublist _).length_le

theorem rstrip_length_le (s : Line) : (rstrip s).length ≤ s.length := by
  simp only [rstrip, List.length_reverse]
  simpa using (List.dropWhile_sublist (l := s.reverse) isPySpace).length_le

theorem rightmostIdx_concat (l : Line) (c : Char) (h : isRightBorder c = true) :
    rightmostIdx (l ++ [c]) = some l.length := by
  induction l with
  | nil => simp [rightmostIdx, h]
  | cons a t ih => simp [rightmostIdx, ih]

/-- Reading back a box-line slot after the `fix_outer_width` loop: the slot
holds exactly the per-line result `fixedLine`. -/
theorem fixOuterGo_getD (t : Nat) :
    ∀ (ps : List (Nat × Line)) (buf : List Line) (n : Nat) (p : Nat × Line),
      p ∈ ps →
      List.Pairwise (fun a b => a.1 < b.1) ps →
      (∀ q ∈ ps, 1 ≤ q.1) →
      buf.getD (p.1 - 1) [] = p.2 →
      p.1 - 1 < buf.length →
      ((fixOuterGo t ps buf n).1).getD (p.1 - 1) [] = fixedLine t p.2 := by
  intro ps
  induction ps with
  | nil => intro buf n p hp; cases hp
  | cons q rest ih =>
    intro buf n p hp hpw hone hbuf hlt
    rw [List.pairwise_cons] at hpw
    rcases List.mem_cons.mp hp with rfl | hp'
    · unfold fixOuterGo
      have hframe : ∀ r ∈ rest, fixWidthLine t r.2 = none ∨ r.1 - 1 ≠ p.1 - 1 := by
        intro r hr
        right
        have h2 := hpw.1 r hr
        have h1 := hone p (List.mem_cons_self _ _)
        omega
      cases hw : fixWidthLine t p.2 with
      | none =>
        rw [fixOuterGo_frame t rest buf n (p.1 - 1) [] hframe, hbuf]
        unfold fixedLine
        rw [hw]
        rfl
      | some nl =>
        rw [fixOuterGo_frame t rest (buf.set (p.1 - 1) nl) (n + 1) (p.1 - 1) [] hframe]
        rw [List.getD_eq_getElem?_getD, List.getElem?_set_self (by simpa using hlt)]
        unfold fixedLine
        rw [hw]
        rfl
    · unfold fixOuterGo
      have hqp : q.1 ≠ p.1 := by
        have := hpw.1 p hp'
        omega
      have h1q := hone q (List.mem_cons_self _ _)
      have h1p := hone p (List.mem_cons_of_mem _ hp')
      cases hw : fixWidthLine t q.2 with
      | none =>
        exact ih buf n p hp' hpw.2 (fun r hr => hone r (List.mem_cons_of_mem _ hr)) hbuf hlt
      | some nl =>
        refine ih (buf.set (q.1 - 1) nl) (n + 1) p hp' hpw.2
          (fun r hr => hone r (List.mem_cons_of_mem _ hr)) ?_ ?_
        · rw [List.getD_eq_getElem?_getD,
            List.getElem?_set_ne (by omega : q.1 - 1 ≠ p.1 - 1),
            ← List.getD_eq_getElem?_getD]
          exact hbuf
        · simpa using hlt

/-- Refreshing the box from the buffer mutated by `fix_outer_width` replaces
each recorded line by its `fixedLine`. -/
theorem refreshBox_fixOuterWidth (lines : List Line) (box : Box)
    (hpw : List.Pairwise (fun a b => a.1 < b.1) box.lines)
    (hok : ∀ p ∈ box.lines, entryOK lines p) :
    (refreshBox (fixOuterWidth lines box).1 box).lines =
      box.lines.map fun p => (p.1, fixedLine box.width p.2) := by
  show box.lines.map (fun p => (p.1, ((fixOuterWidth lines box).1).getD (p.1 - 1) [])) = _
  refine List.map_congr_left ?_
  intro p hp
  have h := fixOuterGo_getD box.width box.lines lines 0 p hp hpw
    (fun q hq => (hok q hq).1) ((hok p hp).2.2) ((hok p hp).2.1)
  rw [show fixOuterWidth lines box = fixOuterGo box.width box.lines lines 0 from rfl, h]

/-- The heart of the amended C1: under the border pattern, the two-glyph
condition, the ends-in-right-border condition for lines already at target
length, and the shrinkability condition for longer lines, the fixed line's
rightmost right-border glyph sits exactly at column `t - 1`. -/
theorem fixedLine_measure (t : Nat) (txt : Line)
    (hpat : matchesBorder txt = true)
    (htwo : twoGlyph txt = true)
    (hend : txt.length = t → endsRightBorder txt = true)
    (hshr : t < txt.length → shrinkable t txt = true) :
    rightmostIdx (fixedLine t txt) = some (t - 1) ∧ 1 ≤ t := by
  rw [matchesBorder, Bool.and_eq_true] at hpat
  obtain ⟨hleft, hlast⟩ := hpat
  have htwo' : 2 ≤ (lstrip txt).length := of_decide_eq_true htwo
  have hSle : (lstrip txt).length ≤ txt.length := lstrip_length_le txt
  have hne : lstrip txt ≠ [] := by
    intro h
    rw [h] at hleft
    exact absurd hleft (by decide)
  by_cases hcur : txt.length = t
  · have hfix : fixWidthLine t txt = none := fixWidthLine_eq_none t txt hcur
    have he := hend hcur
    unfold endsRightBorder at he
    cases hlast2 : txt.getLast? with
    | none => rw [hlast2] at he; cases he
    | some c =>
      rw [hlast2] at he
      obtain ⟨ys, hys⟩ := List.getLast?_eq_some_iff.mp hlast2
      have hyslen : txt.length = ys.length + 1 := by rw [hys]; simp
      constructor
      · unfold fixedLine
        rw [hfix]
        show rightmostIdx txt = some (t - 1)
        rw [hys, rightmostIdx_concat ys c he]
        congr 1
        omega
      · omega
  · unfold fixedLine fixWidthLine
    rw [if_neg hcur, if_neg hne, if_neg (not_not_intro hleft), if_neg (not_not_intro hlast)]
    by_cases hlt : txt.length < t
    · rw [if_pos hlt]
      simp only [Option.getD_some]
      refine ⟨?_, by omega⟩
      rw [show List.replicate (txt.length - (lstrip txt).length) ' ' ++
          (lstrip txt).headD ' ' :: ((lstrip txt).drop 1).dropLast ++
          List.replicate (t - txt.length) ' ' ++
          [(rstrip (lstrip txt)).getLastD ' '] =
        (List.replicate (txt.length - (lstrip txt).length) ' ' ++
          (lstrip txt).headD ' ' :: (((lstrip txt).drop 1).dropLast ++
          List.replicate (t - txt.length) ' ')) ++
          [(rstrip (lstrip txt)).getLastD ' '] from by simp]
      rw [rightmostIdx_concat _ _ hlast]
      congr 1
      simp only [List.length_append, List.length_replicate, List.length_cons,
        List.length_dropLast, List.length_drop]
      omega
    · have hgt : t < txt.length := by omega
      have hsh : (txt.length - (lstrip txt).length) + 2 +
          (rstrip (((lstrip txt).drop 1).dropLast)).length ≤ t :=
        of_decide_eq_true (hshr hgt)
      have hrs : (rstrip (((lstrip txt).drop 1).dropLast)).length ≤
          (((lstrip txt).drop 1).dropLast).length := rstrip_length_le _
      rw [if_neg (by omega : ¬ txt.length < t)]
      simp only [Option.getD_some]
      refine ⟨?_, by omega⟩
      rw [show List.replicate (txt.length - (lstrip txt).length) ' ' ++
          (lstrip txt).headD ' ' :: rstrip (((lstrip txt).drop 1).dropLast) ++
          List.replicate ((((lstrip txt).drop 1).dropLast).length -
            (rstrip (((lstrip txt).drop 1).dropLast)).length + t - txt.length) ' ' ++
          [(rstrip (lstrip txt)).getLastD ' '] =
        (List.replicate (txt.length - (lstrip txt).length) ' ' ++
          (lstrip txt).headD ' ' :: (rstrip (((lstrip txt).drop 1).dropLast) ++
          List.replicate ((((lstrip txt).drop 1).dropLast).length -
            (rstrip (((lstrip txt).drop 1).dropLast)).length + t - txt.length) ' ')) ++
          [(rstrip (lstrip txt)).getLastD ' '] from by simp]
      rw [rightmostIdx_concat _ _ hlast]
      congr 1
      simp only [List.length_append, List.length_replicate, List.length_cons,
        List.length_dropLast, List.length_drop]
      omega

/-- C1 counterexample: on the box `["┌┐ ", "││", "└┘"]` every line matches the
border pattern, yet `check_outer_width` re-run after `fix_outer_width` (with
the box refreshed from the mutated buffer) still reports errors: the first
line's trailing space makes the recorded width 3 while the expected width
stays 2, so the two fixed lines `"│ │"` and `"└ ┘"` are now too wide. -/
theorem c1_counterexample :
    (∀ p ∈ demoTrailBox.lines, matchesBorder p.2 = true) ∧
    checkOuterWidth (refreshBox (fixOuterWidth demoTrail demoTrailBox).1 demoTrailBox) =
      [(2, 3, 2, toL "│ │"), (3, 3, 2, toL "└ ┘")] := by
  exact ⟨by decide, by decide⟩

/-- C1 amended: for every scanned box all of whose lines match the border
pattern with at least two glyphs in their left-trimmed form, where every line
whose raw length already equals the box width ends in a right-border glyph,
and every longer line can shrink to the width by trimming interior trailing
whitespace, running `fix_outer_width` and then `check_outer_width` on the box
refreshed from the mutated buffer returns the empty error sequence. -/
theorem c1_fix_then_check_amended (lines : List Line) (s e : Nat) (box : Box)
    (hb : box ∈ findBoxes lines s e)
    (hlines : ∀ p ∈ box.lines, matchesBorder p.2 = true ∧ twoGlyph p.2 = true ∧
      (p.2.length = box.width → endsRightBorder p.2 = true) ∧
      (box.width < p.2.length → shrinkable box.width p.2 = true)) :
    checkOuterWidth (refreshBox (fixOuterWidth lines box).1 box) = [] := by
  obtain ⟨j, -, -, hspec⟩ := findBoxes_spec lines s e box hb
  have hrefresh := refreshBox_fixOuterWidth lines box hspec.2.2.1
    (fun p hp => (hspec.2.2.2.1 p hp).1)
  have hmeas : ∀ p ∈ box.lines,
      rightmostIdx (fixedLine box.width p.2) = some (box.width - 1) ∧ 1 ≤ box.width := by
    intro p hp
    obtain ⟨h1, h2, h3, h4⟩ := hlines p hp
    exact fixedLine_measure box.width p.2 h1 h2 h3 h4
  unfold checkOuterWidth
  rw [hrefresh]
  cases hbl : box.lines with
  | nil => rfl
  | cons q qs =>
    simp only [List.map_cons]
    have hq : q ∈ box.lines := by rw [hbl]; exact List.mem_cons_self _ _
    obtain ⟨hqidx, hw1⟩ := hmeas q hq
    have hexp : expectedWidth (fixedLine box.width q.2) = box.width := by
      unfold expectedWidth
      rw [hqidx]
      show box.width - 1 + 1 = box.width
      omega
    rw [List.filterMap_eq_nil_iff]
    intro a ha
    have ha' : a ∈ List.map (fun p => (p.1, fixedLine box.width p.2)) (q :: qs) := ha
    rw [List.mem_map] at ha'
    obtain ⟨p, hp, rfl⟩ := ha'
    have hp' : p ∈ box.lines := by rw [hbl]; exact hp
    obtain ⟨hpidx, -⟩ := hmeas p hp'
    have hmw : measureWidth (fixedLine box.width p.2) = box.width := by
      unfold measureWidth
      rw [hpidx]
      show box.width - 1 + 1 = box.width
      omega
    simp [hmw, hexp]

/-- C1 witness: the scenario-A box satisfies the amended hypotheses (its line
2 genuinely gets rewritten), and the re-run check is empty. -/
theorem c1_fix_then_check_amended_witness :
    checkOuterWidth (refreshBox (fixOuterWidth demoA demoABox).1 demoABox) = [] :=
  c1_fix_then_check_amended demoA 1 3 demoABox (by decide) (by decide)

end CheckAlignment
